import Mathlib

/-!
Verification of the pattern-selection and URI-normalization logic of
`llm_tools_fabric.py`.  Python strings are modelled as `List Char`; the
Python string operations used by the source (`lower`, `strip`, `in`,
`startswith`, `endswith`, `split`, slicing) are modelled by the executable
functions below.  Fallible Python functions (those that `raise`) are
modelled with `Except`; the external collaborators (fragment loaders,
template lookup, model invocation) are modelled as fields of a `FabricEnv`
record so that theorems can quantify over every collaborator behaviour,
including raising.
-/

/-- Python strings are modelled as lists of characters. -/
abbrev LC := List Char

instance {ε α : Type} [DecidableEq ε] [DecidableEq α] : DecidableEq (Except ε α) := fun a b =>
  match a, b with
  | .ok x, .ok y =>
    if h : x = y then .isTrue (by rw [h]) else .isFalse (fun hc => h (by injection hc))
  | .error x, .error y =>
    if h : x = y then .isTrue (by rw [h]) else .isFalse (fun hc => h (by injection hc))
  | .ok _, .error _ => .isFalse (fun hc => by injection hc)
  | .error _, .ok _ => .isFalse (fun hc => by injection hc)

/-- Characters removed by Python `str.strip()`.  The source only ever
strips ASCII whitespace, so the model covers space, tab, newline and
carriage return. -/
def pyIsSpace (c : Char) : Bool :=
  c == ' ' || c == '\t' || c == '\n' || c == '\r'

/-- Python `str.strip()`: drop leading and trailing whitespace. -/
def pyStrip (s : LC) : LC :=
  ((s.dropWhile pyIsSpace).reverse.dropWhile pyIsSpace).reverse

/-- ASCII lower-casing of one character, as Python `str.lower()` does on
the ASCII range used by the rule tables (non-ASCII characters are kept). -/
def pyToLower (c : Char) : Char :=
  if 'A' ≤ c ∧ c ≤ 'Z' then Char.ofNat (c.toNat + 32) else c

/-- Python `str.lower()` on the modelled character range. -/
def pyLower (s : LC) : LC := s.map pyToLower

/-- Python `s.startswith(p)`. -/
def listStartsWith : LC → LC → Bool
  | _, [] => true
  | [], _ :: _ => false
  | a :: as, b :: bs => a == b && listStartsWith as bs

/-- Python `s.endswith(p)`. -/
def listEndsWith (s p : LC) : Bool :=
  listStartsWith s.reverse p.reverse

/-- Python `p in s`: `p` occurs as a contiguous substring of `s`. -/
def hasSub : LC → LC → Bool
  | [], p => p.isEmpty
  | s@(_ :: rest), p => listStartsWith s p || hasSub rest p

/-- Prepend a character to the first piece of a split (helper used by
`pySplitChar`). -/
def consHead (x : Char) : List LC → List LC
  | [] => [[x]]
  | h :: t => (x :: h) :: t

/-- Python `s.split(sep)` for a one-character separator. -/
def pySplitChar (sep : Char) : LC → List LC
  | [] => [[]]
  | x :: xs =>
    if x == sep then [] :: pySplitChar sep xs
    else consHead x (pySplitChar sep xs)

/-- The part of `s` before the first occurrence of the (non-empty)
pattern `p`; the whole of `s` when `p` does not occur.  Models
`s.split(p)[0]`. -/
def beforeFirst (p : LC) : LC → LC
  | [] => []
  | c :: rest =>
    if listStartsWith (c :: rest) p then []
    else c :: beforeFirst p rest

/-- The part of `s` after the first occurrence of the (non-empty) pattern
`p`; the whole of `s` when `p` does not occur (the source only uses this
under a guard that guarantees an occurrence).  Models `s.split(p, 1)[1]`. -/
def afterFirst (p : LC) : LC → LC
  | [] => []
  | c :: rest =>
    if listStartsWith (c :: rest) p then (c :: rest).drop p.length
    else afterFirst p rest

/-- `_escape_xml_attr`'s single `str.replace(c, r)` step for a
one-character pattern `c`. -/
def replaceChar (c : Char) (r : LC) : LC → LC
  | [] => []
  | x :: xs =>
    if x == c then r ++ replaceChar c r xs
    else x :: replaceChar c r xs

/-- `_escape_xml_attr`: escape `&`, `<`, `>`, `"` (in that order) for use
in XML attribute values. -/
def escapeXmlAttr (value : LC) : LC :=
  replaceChar '"' "&quot;".data
    (replaceChar '>' "&gt;".data
      (replaceChar '<' "&lt;".data
        (replaceChar '&' "&amp;".data value)))

/-- Character-wise escaping: what `_escape_xml_attr` is proved equal to
(each of the four special characters is replaced exactly once and nothing
else changes, so there is no double escaping). -/
def escChar (c : Char) : LC :=
  if c == '&' then "&amp;".data
  else if c == '<' then "&lt;".data
  else if c == '>' then "&gt;".data
  else if c == '"' then "&quot;".data
  else [c]

/-- The character-wise escaping function extended to strings. -/
def escCharwise (s : LC) : LC := (s.map escChar).flatten

/-- `AUTO_SELECT_RULES`: the global rule table,
`(keywords, content_hints, pattern_name)` triples in declaration order. -/
def AUTO_SELECT_RULES : List (List LC × List LC × LC) := [
  (["youtube".data, "video".data, "summarize".data],
    ["youtube.com".data, "youtu.be".data], "youtube_summary".data),
  (["wisdom".data, "insights".data, "extract".data],
    ["youtube.com".data, "youtu.be".data], "extract_wisdom".data),
  (["lecture".data, "class".data, "lesson".data],
    ["youtube.com".data, "youtu.be".data], "summarize_lecture".data),
  (["chapters".data, "timestamps".data, "sections".data],
    ["youtube.com".data, "youtu.be".data], "create_video_chapters".data),
  (["paper".data, "academic".data, "research".data], [], "summarize_paper".data),
  (["analyze".data, "paper".data], [], "analyze_paper".data),
  (["threat".data, "report".data], [], "analyze_threat_report".data),
  (["malware".data, "ioc".data, "indicator".data], [], "analyze_malware".data),
  (["sigma".data, "detection".data, "rule".data], [], "create_sigma_rules".data),
  (["stride".data, "threat".data, "model".data], [], "create_stride_threat_model".data),
  (["explain".data, "code".data], [], "explain_code".data),
  (["review".data, "design".data, "architecture".data], [], "review_design".data),
  (["extract".data, "ideas".data], [], "extract_ideas".data),
  (["extract".data, "insights".data], [], "extract_insights".data),
  (["analyze".data, "claims".data, "truth".data], [], "analyze_claims".data),
  (["summarize".data], [], "summarize".data)]

/-- The `'yt'` entry of `SOURCE_ACTIONS`. -/
def ytSourceActions : List (LC × LC) := [
  ("summarize".data, "youtube_summary".data),
  ("wisdom".data, "extract_wisdom".data),
  ("extract".data, "extract_wisdom".data),
  ("insights".data, "extract_wisdom".data),
  ("lecture".data, "summarize_lecture".data),
  ("chapters".data, "create_video_chapters".data),
  ([], "youtube_summary".data)]

/-- The `'pdf'` entry of `SOURCE_ACTIONS`. -/
def pdfSourceActions : List (LC × LC) := [
  ("summarize".data, "summarize_paper".data),
  ("analyze".data, "analyze_paper".data),
  ([], "summarize_paper".data)]

/-- `SOURCE_ACTIONS` as a lookup (Python dict membership and access). -/
def SOURCE_ACTIONS (p : LC) : Option (List (LC × LC)) :=
  if p = "yt".data then some ytSourceActions
  else if p = "pdf".data then some pdfSourceActions
  else none

/-- The `for action, pattern in SOURCE_ACTIONS[prefix]` loop of
`_auto_select_pattern`: `.inl pat` models an early `return pattern`,
`.inr d` models falling off the loop with `default_pattern = d`. -/
def scanActions (task_lower : LC) : List (LC × LC) → Option LC → Sum LC (Option LC)
  | [], dflt => .inr dflt
  | (action, pat) :: rest, dflt =>
    if action.isEmpty then scanActions task_lower rest (some pat)
    else if hasSub task_lower action then .inl pat
    else scanActions task_lower rest dflt

/-- The `for keywords, content_hints, pattern_name in AUTO_SELECT_RULES`
loop of `_auto_select_pattern`. -/
def autoRulesLoop (task_lower input_lower : LC) : List (List LC × List LC × LC) → Option LC
  | [] => none
  | (keywords, content_hints, pattern_name) :: rest =>
    if content_hints.isEmpty then
      if keywords.all (fun kw => hasSub task_lower kw) then some pattern_name
      else autoRulesLoop task_lower input_lower rest
    else
      if keywords.any (fun kw => hasSub task_lower kw) then
        if content_hints.any (fun h => hasSub input_lower h) then some pattern_name
        else autoRulesLoop task_lower input_lower rest
      else autoRulesLoop task_lower input_lower rest

/-- `input_text.lower()[:1000]`: the truncated lower-cased input sample
scanned for content hints. -/
def truncLower (input_text : LC) : LC := (pyLower input_text).take 1000

/-- A rule's own matching condition (the loop body's test, independent of
position): rules carrying content hints require any keyword and any hint,
rules without content hints require all keywords. -/
def ruleMatches (task_lower input_lower : LC) (r : List LC × List LC × LC) : Bool :=
  if r.2.1.isEmpty then r.1.all (fun kw => hasSub task_lower kw)
  else r.1.any (fun kw => hasSub task_lower kw) &&
       r.2.1.any (fun h => hasSub input_lower h)

/-- `_auto_select_pattern(task, input_text, source)`. -/
def autoSelectPattern (task input_text source : LC) : Option LC :=
  let task_lower := pyLower task
  let sourcePart : Option LC :=
    if source.elem ':' then
      match SOURCE_ACTIONS (pyLower (beforeFirst [':'] source)) with
      | some actions =>
        match scanActions task_lower actions none with
        | .inl pat => some pat
        | .inr (some d) => if d.isEmpty then none else some d
        | .inr none => none
      | none => none
    else none
  match sourcePart with
  | some p => some p
  | none => autoRulesLoop task_lower (truncLower input_text) AUTO_SELECT_RULES

/-- The specification-side reading of the source-action lookup: the
pattern of the first non-sentinel action whose keyword occurs in the
lowered task, else the (last) sentinel default. -/
def actionTableSelect (acts : List (LC × LC)) (task_lower : LC) : Option LC :=
  match acts.find? (fun ap => !ap.1.isEmpty && hasSub task_lower ap.1) with
  | some ap => some ap.2
  | none => acts.foldl (fun acc ap => if ap.1.isEmpty then some ap.2 else acc) none

/-- `_normalize_url`: strip, then prepend `https://` unless a protocol is
already present. -/
def normalizeUrl (argument0 : LC) : LC :=
  let argument := pyStrip argument0
  if listStartsWith argument "http://".data || listStartsWith argument "https://".data then
    argument
  else "https://".data ++ argument

/-- The `'github.com' in argument` branch of `_normalize_github_repo`:
strip a scheme, strip a leading `github.com/`, and return
`owner/repo` (with a trailing `.git` removed) when at least two path
segments remain.  `some` models the early `return`, `none` falling
through to the owner/repo branch. -/
def ghUrlResult (argument : LC) : Option LC :=
  if hasSub argument "github.com".data then
    let url1 :=
      if listStartsWith argument "http://".data || listStartsWith argument "https://".data then
        afterFirst "://".data argument
      else argument
    let url2 := if listStartsWith url1 "github.com/".data then url1.drop 11 else url1
    match pySplitChar '/' url2 with
    | owner :: repo :: _ =>
      some (owner ++ '/' ::
        (if listEndsWith repo ".git".data then repo.take (repo.length - 4) else repo))
    | _ => none
  else none

/-- The `ValueError` message of `_normalize_github_repo`. -/
def repoErr (argument : LC) : LC :=
  "Invalid GitHub reference: \x27".data ++ argument ++
    "\x27. Expected \x27owner/repo\x27 or a GitHub URL (e.g., \x27https://github.com/owner/repo\x27)".data

/-- The direct `owner/repo` branch of `_normalize_github_repo` (reached
when the `github.com` branch fell through), together with the final
`raise ValueError`. -/
def repoFallback (argument : LC) : Except LC LC :=
  if argument.elem '/' && !listStartsWith argument "/".data then
    match pySplitChar '/' argument with
    | owner :: repo :: _ =>
      if !owner.isEmpty && !repo.isEmpty then
        .ok (owner ++ '/' :: beforeFirst ".git".data repo)
      else .error (repoErr argument)
    | _ => .error (repoErr argument)
  else .error (repoErr argument)

/-- `_normalize_github_repo`.  `ValueError` is modelled as `.error` with
the raised message. -/
def normalizeGithubRepo (argument0 : LC) : Except LC LC :=
  let argument := pyStrip argument0
  match ghUrlResult argument with
  | some r => .ok r
  | none => repoFallback argument

/-- The character class of the video-identifier regular expression
`^[a-zA-Z0-9_-]{10,12}$`. -/
def ytIdChar (c : Char) : Bool :=
  c.isAlphanum || c == '_' || c == '-'

/-- `re.match(r'^[a-zA-Z0-9_-]{10,12}$', a)` as a Boolean. -/
def ytIdCheck (a : LC) : Bool :=
  decide (10 ≤ a.length) && decide (a.length ≤ 12) && a.all ytIdChar

/-- The error message of `_normalize_youtube_url`. -/
def ytErrMsg (a : LC) : LC :=
  "Invalid YouTube reference: \x27".data ++ a ++
    "\x27. Expected a video ID (e.g., \x27dQw4w9WgXcQ\x27) or URL (e.g., \x27https://youtube.com/watch?v=...\x27)".data

/-- The YouTube domains recognized without a protocol, in source order. -/
def ytDomains : List LC :=
  ["youtube.com".data, "www.youtube.com".data, "m.youtube.com".data, "youtu.be".data]

/-- `_normalize_youtube_url`. -/
def normalizeYoutubeUrl (argument0 : LC) : Except LC LC :=
  let argument := pyStrip argument0
  if listStartsWith argument "http://".data || listStartsWith argument "https://".data then
    .ok argument
  else
    match ytDomains.find? (fun d => listStartsWith argument d) with
    | some _ => .ok ("https://".data ++ argument)
    | none =>
      if ytIdCheck argument then
        .ok ("https://www.youtube.com/watch?v=".data ++ argument)
      else .error (ytErrMsg argument)

/-- Python exceptions, as far as `prompt_fabric`'s handlers distinguish
them: `ValueError` versus any other `Exception`. -/
inductive PyExc where
  | valueError (m : LC)
  | otherExc (m : LC)
deriving DecidableEq

/-- `str(e)`: the message of an exception. -/
def PyExc.msg : PyExc → LC
  | .valueError m => m
  | .otherExc m => m

/-- The external collaborators of the module, each able to raise.
`loadSource` stands for the whole of `_load_source` (an I/O composite of
loaders and the pure normalizers modelled separately above);
`loadTemplate` is `llm.cli.load_template` (returning the template's
optional system prompt); `modelPrompt` is `llm.get_model` /
`model.prompt` / `response.text()`; `suggestModel` is the model call made
inside `_suggest_patterns`. -/
structure FabricEnv where
  loadSource : LC → Except PyExc LC
  loadTemplate : LC → Except PyExc (Option LC)
  modelPrompt : LC → LC → Except PyExc LC
  suggestModel : LC → Except PyExc LC

/-- `_run_pattern`: template lookup failure is re-raised as `ValueError`;
the model invocation's outcome (including any exception) is passed on. -/
def runPatternM (env : FabricEnv) (pattern_name input_text : LC) : Except PyExc LC :=
  match env.loadTemplate ("fabric:".data ++ pattern_name) with
  | .error e =>
    .error (.valueError ("Pattern \x27".data ++ pattern_name ++ "\x27 not found: ".data ++ e.msg))
  | .ok sys => env.modelPrompt input_text (sys.getD [])

/-- `_suggest_patterns`: a failing model call degrades to an inline error
string instead of raising. -/
def suggestPatterns (env : FabricEnv) (task : LC) : LC :=
  match env.suggestModel task with
  | .ok t => t
  | .error e => "Error getting suggestions: ".data ++ e.msg

/-- The validation-error envelope of `prompt_fabric`. -/
def validationEnvelope : LC :=
  "<fabric_error type=\"validation\">\nEither \x27task\x27 or \x27pattern\x27 must be provided.\nHint: Describe what you want to do, or specify a pattern name.\n</fabric_error>".data

/-- The source-load-failure envelope of `prompt_fabric`. -/
def sourceErrEnvelope (source : LC) (e : PyExc) : LC :=
  "<fabric_error source=\"".data ++ escapeXmlAttr source ++
    "\">\nFailed to load source: ".data ++ e.msg ++ "\n</fabric_error>".data

/-- `prompt_fabric(task, pattern, input_text, source)`. -/
def promptFabric (env : FabricEnv) (task pattern input_text source : LC) : LC :=
  match (if source.isEmpty then Except.ok input_text else env.loadSource source) with
  | .error e => sourceErrEnvelope source e
  | .ok input1 =>
    if task.isEmpty && pattern.isEmpty then
      validationEnvelope
    else if !pattern.isEmpty then
      let pname0 := pyStrip pattern
      let pname :=
        if listStartsWith pname0 "fabric:".data then pname0.drop 7 else pname0
      match runPatternM env pname input1 with
      | .ok result =>
        "<fabric_result pattern=\"".data ++ escapeXmlAttr pname ++ "\">\n".data ++
          result ++ "\n</fabric_result>".data
      | .error (.valueError m) =>
        "<fabric_error pattern=\"".data ++ escapeXmlAttr pname ++ "\">\n".data ++ m ++
          "\nHint: Use prompt_fabric(task=\x27describe what you want\x27) to get pattern suggestions.\n</fabric_error>".data
      | .error (.otherExc m) =>
        "<fabric_error pattern=\"".data ++ escapeXmlAttr pname ++
          "\">\nPattern execution failed: ".data ++ m ++ "\n</fabric_error>".data
    else
      match autoSelectPattern task input1 source with
      | some selected =>
        match runPatternM env selected input1 with
        | .ok result =>
          "<fabric_result pattern=\"".data ++ escapeXmlAttr selected ++
            "\" auto_selected=\"true\">\n".data ++ result ++ "\n</fabric_result>".data
        | .error e =>
          "<fabric_error pattern=\"".data ++ escapeXmlAttr selected ++
            "\" auto_selected=\"true\">\nPattern execution failed: ".data ++ e.msg ++
            "\n</fabric_error>".data
      | none =>
        "<fabric_suggestions task=\"".data ++ escapeXmlAttr task ++ "\">\n".data ++
          suggestPatterns env task ++
          "\n\nHint: Call prompt_fabric(pattern=\x27pattern_name\x27, input_text=content) with your chosen pattern.\n</fabric_suggestions>".data

/-- The remote-pdf path of `_load_source`:
`temp_file = _download_url_to_temp(url); try: extract; finally: unlink`.
`download` is the `urlopen`/`read`/`write` step of
`_download_url_to_temp`, which runs strictly after the
`NamedTemporaryFile(delete=False)` has been created on disk (request
construction, which precedes file creation, cannot leak a file and is
not modelled).  The returned Boolean records whether the temporary file
still exists on disk after the call: the `finally: os.unlink` only
protects the extraction step, so a `download` failure propagates before
the `try` is entered and the file persists. -/
def pdfRemoteFetch (download : Except PyExc Unit) (extract : Except PyExc LC) :
    Except PyExc LC × Bool :=
  match download with
  | .error e => (.error e, true)
  | .ok _ =>
    match extract with
    | .ok r => (.ok r, false)
    | .error e => (.error e, false)

/-- Whether an `Except` is an error (a raised exception). -/
def isErr : Except LC LC → Bool
  | .error _ => true
  | .ok _ => false

/-- The owner/name-pair shape of a canonical repository reference: exactly
two non-empty segments separated by one `/`. -/
def isOwnerNamePair (x : LC) : Bool :=
  match pySplitChar '/' x with
  | [o, n] => !o.isEmpty && !n.isEmpty
  | _ => false

/-- Valid characters of a GitHub owner or repository name segment
(letters, digits, hyphen, underscore, dot). -/
def repoNameChar (c : Char) : Bool :=
  c.isAlphanum || c == '-' || c == '_' || c == '.'

/-- Environment used by the C10 witness. -/
def c10Env : FabricEnv :=
  ⟨fun _ => .error (.otherExc "boom".data), fun _ => .ok none,
   fun _ _ => .ok [], fun _ => .ok []⟩

/-- Environment used by the C6 witness: the model returns `OUT`. -/
def c6Env : FabricEnv :=
  ⟨fun _ => .ok [], fun _ => .ok none, fun _ _ => .ok "OUT".data, fun _ => .ok []⟩

/-- Environment used by the C6 counterexample: the pattern's result payload
contains all four markup metacharacters. -/
def c6CexEnv : FabricEnv :=
  ⟨fun _ => .ok [], fun _ => .ok none, fun _ _ => .ok "<&>\"".data, fun _ => .ok []⟩

/-! ## Basic lemmas about the string model -/

theorem startsWith_iff {s p : LC} : listStartsWith s p = true ↔ ∃ r, s = p ++ r := by
  induction p generalizing s with
  | nil => simp [listStartsWith]
  | cons b bs ih =>
    cases s with
    | nil => simp [listStartsWith]
    | cons a as =>
      simp only [listStartsWith, Bool.and_eq_true, beq_iff_eq, ih]
      constructor
      · rintro ⟨rfl, r, rfl⟩; exact ⟨r, rfl⟩
      · rintro ⟨r, h⟩
        injection h with h1 h2
        exact ⟨h1, r, h2⟩

theorem startsWith_append_self (p t : LC) : listStartsWith (p ++ t) p = true :=
  startsWith_iff.mpr ⟨t, rfl⟩

theorem startsWith_prepend {p q : LC} (t : LC) (h : listStartsWith p q = true) :
    listStartsWith (p ++ t) q = true := by
  obtain ⟨r, rfl⟩ := startsWith_iff.mp h
  exact startsWith_iff.mpr ⟨r ++ t, by simp⟩

theorem startsWith_length {s p : LC} (h : listStartsWith s p = true) : p.length ≤ s.length := by
  obtain ⟨r, rfl⟩ := startsWith_iff.mp h
  simp

theorem startsWith_mem {s p : LC} {c : Char} (h : listStartsWith s p = true) (hc : c ∈ p) :
    c ∈ s := by
  obtain ⟨r, rfl⟩ := startsWith_iff.mp h
  exact List.mem_append_left _ hc

theorem hasSub_iff {s p : LC} : hasSub s p = true ↔ ∃ a b, s = a ++ (p ++ b) := by
  induction s with
  | nil =>
    simp only [hasSub, List.isEmpty_iff]
    constructor
    · rintro rfl; exact ⟨[], [], rfl⟩
    · rintro ⟨a, b, h⟩
      rcases List.append_eq_nil.mp h.symm with ⟨rfl, h2⟩
      exact (List.append_eq_nil.mp h2).1
  | cons x xs ih =>
    simp only [hasSub, Bool.or_eq_true, ih, startsWith_iff]
    constructor
    · rintro (⟨r, h⟩ | ⟨a, b, h⟩)
      · exact ⟨[], r, by simpa using h⟩
      · exact ⟨x :: a, b, by simp [h]⟩
    · rintro ⟨a, b, h⟩
      cases a with
      | nil => exact Or.inl ⟨b, by simpa using h⟩
      | cons a0 as =>
        injection h with h1 h2
        exact Or.inr ⟨as, b, h2⟩

theorem hasSub_mem {s p : LC} {c : Char} (h : hasSub s p = true) (hc : c ∈ p) : c ∈ s := by
  obtain ⟨a, b, rfl⟩ := hasSub_iff.mp h
  exact List.mem_append_right _ (List.mem_append_left _ hc)

theorem hasSub_of_endsWith {s p : LC} (h : listEndsWith s p = true) : hasSub s p = true := by
  obtain ⟨r, hr⟩ := startsWith_iff.mp h
  refine hasSub_iff.mpr ⟨r.reverse, [], ?_⟩
  have := congrArg List.reverse hr
  simpa using this

theorem dropWhile_dropWhile {p : Char → Bool} : ∀ l : LC,
    (l.dropWhile p).dropWhile p = l.dropWhile p := by
  intro l
  induction l with
  | nil => rfl
  | cons a t ih =>
    by_cases h : p a
    · simp [List.dropWhile_cons, h, ih]
    · simp [List.dropWhile_cons, h]

theorem dropWhile_head_false {p : Char → Bool} {x : Char} {xs : LC} :
    ∀ l : LC, l.dropWhile p = x :: xs → p x = false := by
  intro l
  induction l with
  | nil => intro h; simp [List.dropWhile] at h
  | cons a t ih =>
    intro h
    by_cases ha : p a
    · exact ih (by simpa [List.dropWhile_cons, ha] using h)
    · rw [List.dropWhile_cons, if_neg (by simp [ha])] at h
      injection h with h1 _
      rw [← h1]
      simpa using ha

theorem dropWhile_cons_self {p : Char → Bool} {x : Char} {xs : LC} (h : p x = false) :
    (x :: xs).dropWhile p = x :: xs := by
  simp [List.dropWhile_cons, h]

theorem dropWhile_eq_self_of {p : Char → Bool} {l : LC} (h : ∀ c ∈ l, p c = false) :
    l.dropWhile p = l := by
  cases l with
  | nil => rfl
  | cons a t => exact dropWhile_cons_self (h a (List.mem_cons_self a t))

theorem dropWhile_exists_append {p : Char → Bool} : ∀ l : LC, ∃ t, t ++ l.dropWhile p = l := by
  intro l
  induction l with
  | nil => exact ⟨[], rfl⟩
  | cons a t ih =>
    by_cases h : p a
    · obtain ⟨w, hw⟩ := ih
      exact ⟨a :: w, by simp [List.dropWhile_cons, h, hw]⟩
    · exact ⟨[], by simp [List.dropWhile_cons, h]⟩

theorem pyStrip_eq_self {s : LC} (h : ∀ c ∈ s, pyIsSpace c = false) : pyStrip s = s := by
  unfold pyStrip
  rw [dropWhile_eq_self_of h, dropWhile_eq_self_of (by intro c hc; exact h c (by simpa using hc)),
    List.reverse_reverse]

theorem strip_parts {t : LC} (h : pyStrip t = t) :
    t.dropWhile pyIsSpace = t ∧ t.reverse.dropWhile pyIsSpace = t.reverse := by
  obtain ⟨w1, hw1⟩ := dropWhile_exists_append (p := pyIsSpace) t
  obtain ⟨w2, hw2⟩ := dropWhile_exists_append (p := pyIsSpace) (t.dropWhile pyIsSpace).reverse
  have hlen : ((t.dropWhile pyIsSpace).reverse.dropWhile pyIsSpace).length = t.length := by
    have := congrArg List.length h
    simpa [pyStrip] using this
  have hl1 : (t.dropWhile pyIsSpace).length ≤ t.length := by
    have := congrArg List.length hw1
    simp at this
    omega
  have hl2 : ((t.dropWhile pyIsSpace).reverse.dropWhile pyIsSpace).length ≤
      (t.dropWhile pyIsSpace).length := by
    have := congrArg List.length hw2
    simp at this
    omega
  have hw1len : w1.length = 0 := by
    have := congrArg List.length hw1
    simp at this
    omega
  have hw2len : w2.length = 0 := by
    have := congrArg List.length hw2
    simp at this
    omega
  have hw1nil : w1 = [] := List.length_eq_zero.mp hw1len
  have hw2nil : w2 = [] := List.length_eq_zero.mp hw2len
  subst hw1nil hw2nil
  simp only [List.nil_append] at hw1 hw2
  refine ⟨hw1, ?_⟩
  rw [hw1] at hw2
  exact hw2

theorem pyStrip_idem (s : LC) : pyStrip (pyStrip s) = pyStrip s := by
  set t := s.dropWhile pyIsSpace with ht
  set u : LC := (t.reverse.dropWhile pyIsSpace).reverse with hu
  have hstrip : pyStrip s = u := rfl
  rw [hstrip]
  -- u is a prefix of t, and t's head (if any) is non-space.
  obtain ⟨w, hw⟩ := dropWhile_exists_append (p := pyIsSpace) t.reverse
  have hpre : u ++ w.reverse = t := by
    have := congrArg List.reverse hw
    simpa [hu] using this
  have hA : u.dropWhile pyIsSpace = u := by
    cases hcase : u with
    | nil => rfl
    | cons x u2 =>
      have hthead : s.dropWhile pyIsSpace = x :: (u2 ++ w.reverse) := by
        rw [← ht, ← hpre, hcase]; simp
      have hx : pyIsSpace x = false := dropWhile_head_false s hthead
      exact dropWhile_cons_self hx
  have hB : u.reverse.dropWhile pyIsSpace = u.reverse := by
    have : u.reverse = t.reverse.dropWhile pyIsSpace := by simp [hu]
    rw [this, dropWhile_dropWhile]
  unfold pyStrip
  rw [hA, hB, List.reverse_reverse]

theorem dropWhile_eq_self_head_false {p : Char → Bool} {x : Char} {xs : LC}
    (h : (x :: xs).dropWhile p = x :: xs) : p x = false := by
  by_cases hx : p x
  · rw [List.dropWhile_cons, if_pos (by simp [hx])] at h
    obtain ⟨w, hw⟩ := dropWhile_exists_append (p := p) xs
    have hlen := congrArg List.length h
    have hlen2 := congrArg List.length hw
    simp at hlen hlen2
    omega
  · simpa using hx

theorem pyStrip_append_fixed {pre t : LC} (hws : ∀ c ∈ pre, pyIsSpace c = false)
    (hne : pre ≠ []) (hfix : pyStrip t = t) : pyStrip (pre ++ t) = pre ++ t := by
  obtain ⟨a, pre2, rfl⟩ := List.exists_cons_of_ne_nil hne
  have hparts := strip_parts hfix
  unfold pyStrip
  have h1 : ((a :: pre2) ++ t).dropWhile pyIsSpace = (a :: pre2) ++ t := by
    exact dropWhile_cons_self (hws a (List.mem_cons_self a pre2))
  rw [h1]
  have h2 : ((a :: pre2) ++ t).reverse.dropWhile pyIsSpace = ((a :: pre2) ++ t).reverse := by
    rw [List.reverse_append]
    by_cases hcase : t = []
    · subst hcase
      simp only [List.reverse_nil, List.nil_append]
      exact dropWhile_eq_self_of (fun c hc => hws c (List.mem_reverse.mp hc))
    · have htne : t.reverse ≠ [] := by simpa using hcase
      obtain ⟨z, zs, hz⟩ := List.exists_cons_of_ne_nil htne
      have hzfix : (z :: zs).dropWhile pyIsSpace = z :: zs := by
        have h2' := hparts.2
        rw [hz] at h2'
        exact h2'
      have hzf : pyIsSpace z = false := dropWhile_eq_self_head_false hzfix
      rw [hz, List.cons_append]
      exact dropWhile_cons_self hzf
  rw [h2, List.reverse_reverse]

theorem pyStrip_length_le (s : LC) : (pyStrip s).length ≤ s.length := by
  obtain ⟨w1, hw1⟩ := dropWhile_exists_append (p := pyIsSpace) s
  obtain ⟨w2, hw2⟩ := dropWhile_exists_append (p := pyIsSpace) (s.dropWhile pyIsSpace).reverse
  have l1 := congrArg List.length hw1
  have l2 := congrArg List.length hw2
  simp at l1 l2
  simp [pyStrip]
  omega

theorem pySplitChar_sepfree {sep : Char} {n : LC} (h : ∀ c ∈ n, (c == sep) = false) :
    pySplitChar sep n = [n] := by
  induction n with
  | nil => rfl
  | cons c rest ih =>
    have hc : (c == sep) = false := h c (List.mem_cons_self c rest)
    have hrest := ih (fun d hd => h d (List.mem_cons_of_mem c hd))
    rw [pySplitChar, if_neg (by simp [hc]), hrest, consHead]

theorem pySplitChar_append {sep : Char} {o n : LC} (h : ∀ c ∈ o, (c == sep) = false) :
    pySplitChar sep (o ++ sep :: n) = o :: pySplitChar sep n := by
  induction o with
  | nil => simp [pySplitChar]
  | cons c o2 ih =>
    have hc : (c == sep) = false := h c (List.mem_cons_self c o2)
    have ho2 := ih (fun d hd => h d (List.mem_cons_of_mem c hd))
    rw [List.cons_append, pySplitChar, if_neg (by simp [hc]), ho2, consHead]

theorem beforeFirst_of_not_sub {p s : LC} (h : hasSub s p = false) : beforeFirst p s = s := by
  induction s with
  | nil => rfl
  | cons c rest ih =>
    have h2 : (listStartsWith (c :: rest) p || hasSub rest p) = false := h
    rw [Bool.or_eq_false_iff] at h2
    rw [beforeFirst, if_neg (by simp [h2.1]), ih h2.2]

theorem prefix_upto_sep {sep : Char} : ∀ (o q n : LC),
    (∀ c ∈ o, (c == sep) = false) → (∀ c ∈ q, (c == sep) = false) →
    listStartsWith (o ++ sep :: n) (q ++ [sep]) = true → o = q := by
  intro o
  induction o with
  | nil =>
    intro q n _ hq hsw
    cases q with
    | nil => rfl
    | cons d q2 =>
      exfalso
      simp only [List.nil_append, List.cons_append, listStartsWith, Bool.and_eq_true,
        beq_iff_eq] at hsw
      have := hq d (List.mem_cons_self d q2)
      rw [← hsw.1] at this
      simp at this
  | cons a o2 ih =>
    intro q n ho hq hsw
    cases q with
    | nil =>
      exfalso
      simp only [List.cons_append, List.nil_append, listStartsWith, Bool.and_eq_true,
        beq_iff_eq] at hsw
      have := ho a (List.mem_cons_self a o2)
      rw [hsw.1] at this
      simp at this
    | cons d q2 =>
      simp only [List.cons_append, listStartsWith, Bool.and_eq_true, beq_iff_eq] at hsw
      have ho2 : ∀ c ∈ o2, (c == sep) = false := fun c hc => ho c (List.mem_cons_of_mem a hc)
      have hq2 : ∀ c ∈ q2, (c == sep) = false := fun c hc => hq c (List.mem_cons_of_mem d hc)
      have := ih q2 n ho2 hq2 hsw.2
      rw [hsw.1, this]

/-! ## Character-class lemmas -/

theorem pyIsSpace_cases {c : Char} (h : pyIsSpace c = true) :
    c = ' ' ∨ c = '\t' ∨ c = '\n' ∨ c = '\r' := by
  simp only [pyIsSpace, Bool.or_eq_true, beq_iff_eq] at h
  tauto

theorem repoNameChar_not_space {c : Char} (h : repoNameChar c = true) : pyIsSpace c = false := by
  by_contra hsp
  rw [Bool.not_eq_false] at hsp
  rcases pyIsSpace_cases hsp with rfl | rfl | rfl | rfl <;> simp [repoNameChar] at h

theorem repoNameChar_not_slash {c : Char} (h : repoNameChar c = true) : (c == '/') = false := by
  by_contra hs
  rw [Bool.not_eq_false, beq_iff_eq] at hs
  subst hs
  simp [repoNameChar] at h

theorem repoNameChar_not_colon {c : Char} (h : repoNameChar c = true) : c ≠ ':' := by
  intro hs
  subst hs
  simp [repoNameChar] at h

theorem ytIdChar_not_space {c : Char} (h : ytIdChar c = true) : pyIsSpace c = false := by
  by_contra hsp
  rw [Bool.not_eq_false] at hsp
  rcases pyIsSpace_cases hsp with rfl | rfl | rfl | rfl <;> simp [ytIdChar] at h

theorem ytIdChar_not_colon {c : Char} (h : ytIdChar c = true) : c ≠ ':' := by
  intro hs; subst hs; simp [ytIdChar] at h

theorem ytIdChar_not_dot {c : Char} (h : ytIdChar c = true) : c ≠ '.' := by
  intro hs; subst hs; simp [ytIdChar] at h

/-! ## `find?`-based characterizations of the selection loops -/

theorem find?_cons_true {α} (p : α → Bool) (a : α) (l : List α) (h : p a = true) :
    (a :: l).find? p = some a := by
  rw [List.find?_cons, h]

theorem find?_cons_false {α} (p : α → Bool) (a : α) (l : List α) (h : p a = false) :
    (a :: l).find? p = l.find? p := by
  rw [List.find?_cons, h]

theorem mem_of_getElem?_eq {α} {l : List α} {i : Nat} {x : α} (h : l[i]? = some x) : x ∈ l := by
  obtain ⟨hlt, rfl⟩ := List.getElem?_eq_some.mp h
  exact List.getElem_mem hlt

theorem find?_eq_some_of_first {α} (p : α → Bool) :
    ∀ (l : List α) (i : Nat) (x : α), l[i]? = some x → p x = true →
      (l.take i).all (fun y => !(p y)) = true → l.find? p = some x := by
  intro l
  induction l with
  | nil => intro i x hx _ _; simp at hx
  | cons a t ih =>
    intro i x hx hp hall
    cases i with
    | zero =>
      simp only [List.getElem?_cons_zero, Option.some_inj] at hx
      subst hx
      exact List.find?_cons_of_pos _ hp
    | succ i =>
      simp only [List.getElem?_cons_succ] at hx
      rw [List.take_succ_cons, List.all_cons, Bool.and_eq_true] at hall
      have hpa : p a = false := by
        have := hall.1
        simpa using this
      rw [List.find?_cons_of_neg _ (by simp [hpa])]
      exact ih i x hx hp hall.2

theorem find?_first_spec {α} (p : α → Bool) :
    ∀ (l : List α) (x : α), l.find? p = some x →
      ∃ i, l[i]? = some x ∧ p x = true ∧ (l.take i).all (fun y => !(p y)) = true := by
  intro l
  induction l with
  | nil => intro x h; simp at h
  | cons a t ih =>
    intro x h
    by_cases hpa : p a = true
    · rw [List.find?_cons_of_pos _ hpa] at h
      simp only [Option.some_inj] at h
      subst h
      exact ⟨0, by simp, hpa, by simp⟩
    · have hpa2 : p a = false := by simpa using hpa
      rw [List.find?_cons_of_neg _ (by simp [hpa2])] at h
      obtain ⟨i, hi, hp, hall⟩ := ih x h
      exact ⟨i + 1, by simpa using hi, hp, by simp [List.take_succ_cons, hpa2, hall]⟩

theorem nodup_getElem?_inj {α} : ∀ (l : List α), l.Nodup → ∀ (i j : Nat) (x : α),
    l[i]? = some x → l[j]? = some x → i = j := by
  intro l
  induction l with
  | nil => intro _ i j x hx _; simp at hx
  | cons a t ih =>
    intro hnd i j x hx hy
    have hnd2 := List.nodup_cons.mp hnd
    cases i with
    | zero =>
      cases j with
      | zero => rfl
      | succ j =>
        exfalso
        simp only [List.getElem?_cons_zero, Option.some_inj] at hx
        simp only [List.getElem?_cons_succ] at hy
        subst hx
        exact hnd2.1 (mem_of_getElem?_eq hy)
    | succ i =>
      cases j with
      | zero =>
        exfalso
        simp only [List.getElem?_cons_zero, Option.some_inj] at hy
        simp only [List.getElem?_cons_succ] at hx
        subst hy
        exact hnd2.1 (mem_of_getElem?_eq hx)
      | succ j =>
        simp only [List.getElem?_cons_succ] at hx hy
        exact congrArg Nat.succ (ih hnd2.2 i j x hx hy)

theorem autoRulesLoop_eq_find (tl il : LC) : ∀ l,
    autoRulesLoop tl il l = (l.find? (ruleMatches tl il)).map (fun r => r.2.2) := by
  intro l
  induction l with
  | nil => rfl
  | cons r rest ih =>
    obtain ⟨kws, hints, pat⟩ := r
    by_cases hh : hints.isEmpty
    · by_cases hall : kws.all (fun kw => hasSub tl kw) = true
      · rw [find?_cons_true (ruleMatches tl il) (kws, hints, pat) rest (by simp [ruleMatches, hh, hall])]
        simp [autoRulesLoop, hh, hall]
      · have hall2 : kws.all (fun kw => hasSub tl kw) = false := by simpa using hall
        rw [find?_cons_false (ruleMatches tl il) (kws, hints, pat) rest (by simp [ruleMatches, hh, hall2])]
        simp [autoRulesLoop, hh, hall2, ih]
    · have hh2 : hints.isEmpty = false := by simpa using hh
      by_cases hany : kws.any (fun kw => hasSub tl kw) = true
      · by_cases hhint : hints.any (fun h => hasSub il h) = true
        · rw [find?_cons_true (ruleMatches tl il) (kws, hints, pat) rest
            (by simp [ruleMatches, hh2, hany, hhint])]
          simp [autoRulesLoop, hh2, hany, hhint]
        · have hhint2 : hints.any (fun h => hasSub il h) = false := by simpa using hhint
          rw [find?_cons_false (ruleMatches tl il) (kws, hints, pat) rest
            (by simp [ruleMatches, hh2, hhint2])]
          simp [autoRulesLoop, hh2, hany, hhint2, ih]
      · have hany2 : kws.any (fun kw => hasSub tl kw) = false := by simpa using hany
        rw [find?_cons_false (ruleMatches tl il) (kws, hints, pat) rest
          (by simp [ruleMatches, hh2, hany2])]
        simp [autoRulesLoop, hh2, hany2, ih]

theorem scanActions_spec (tl : LC) : ∀ (acts : List (LC × LC)) (dflt : Option LC),
    (∃ ap, acts.find? (fun ap => !ap.1.isEmpty && hasSub tl ap.1) = some ap ∧
      scanActions tl acts dflt = .inl ap.2) ∨
    (acts.find? (fun ap => !ap.1.isEmpty && hasSub tl ap.1) = none ∧
      scanActions tl acts dflt =
        .inr (acts.foldl (fun acc ap => if ap.1.isEmpty then some ap.2 else acc) dflt)) := by
  intro acts
  induction acts with
  | nil => intro dflt; right; exact ⟨rfl, rfl⟩
  | cons ap0 rest ih =>
    intro dflt
    obtain ⟨action, pat⟩ := ap0
    by_cases he : action.isEmpty
    · have hrw := find?_cons_false (fun ap : LC × LC => !ap.1.isEmpty && hasSub tl ap.1)
        (action, pat) rest (by simp [he])
      have hscan0 : scanActions tl ((action, pat) :: rest) dflt = scanActions tl rest (some pat) := by
        simp [scanActions, he]
      have hfold : List.foldl (fun acc ap => if ap.1.isEmpty then some ap.2 else acc) dflt
          ((action, pat) :: rest) =
          List.foldl (fun acc ap => if ap.1.isEmpty then some ap.2 else acc) (some pat) rest := by
        rw [List.foldl_cons]
        simp [he]
      rcases ih (some pat) with ⟨ap2, hfind, hscan⟩ | ⟨hfind, hscan⟩
      · exact Or.inl ⟨ap2, by rw [hrw]; exact hfind, by rw [hscan0]; exact hscan⟩
      · exact Or.inr ⟨by rw [hrw]; exact hfind, by rw [hscan0, hscan, hfold]⟩
    · have he2 : action.isEmpty = false := by simpa using he
      by_cases hsub : hasSub tl action = true
      · have hrw := find?_cons_true (fun ap : LC × LC => !ap.1.isEmpty && hasSub tl ap.1)
          (action, pat) rest (by simp [he2, hsub])
        exact Or.inl ⟨(action, pat), hrw, by simp [scanActions, he2, hsub]⟩
      · have hsub2 : hasSub tl action = false := by simpa using hsub
        have hrw := find?_cons_false (fun ap : LC × LC => !ap.1.isEmpty && hasSub tl ap.1)
          (action, pat) rest (by simp [he2, hsub2])
        have hscan0 : scanActions tl ((action, pat) :: rest) dflt = scanActions tl rest dflt := by
          simp [scanActions, he2, hsub2]
        have hfold : List.foldl (fun acc ap => if ap.1.isEmpty then some ap.2 else acc) dflt
            ((action, pat) :: rest) =
            List.foldl (fun acc ap => if ap.1.isEmpty then some ap.2 else acc) dflt rest := by
          rw [List.foldl_cons]
          simp [he2]
        rcases ih dflt with ⟨ap2, hfind, hscan⟩ | ⟨hfind, hscan⟩
        · exact Or.inl ⟨ap2, by rw [hrw]; exact hfind, by rw [hscan0]; exact hscan⟩
        · exact Or.inr ⟨by rw [hrw]; exact hfind, by rw [hscan0, hscan, hfold]⟩

theorem rulesPatterns_nodup : (AUTO_SELECT_RULES.map (fun r => r.2.2)).Nodup := by decide

theorem autoSelect_no_source (task input_text : LC) :
    autoSelectPattern task input_text [] =
      autoRulesLoop (pyLower task) (truncLower input_text) AUTO_SELECT_RULES := rfl

/-- C1 (corrected): for a rule of `AUTO_SELECT_RULES` with no content
hints at position `i`, `_auto_select_pattern` with no source returns that
rule's pattern iff every keyword of the rule occurs (case-insensitively,
in any order) as a substring of the task AND no earlier rule's own
condition is satisfied.  The original claim omitted the second conjunct:
rule order is significant, so an earlier matching rule pre-empts a later
one even when all of the later rule's keywords occur. -/
theorem C1_theorem (task input_text : LC) (i : Nat) (kws : List LC) (pat : LC)
    (hrule : AUTO_SELECT_RULES[i]? = some (kws, [], pat)) :
    autoSelectPattern task input_text [] = some pat ↔
      (kws.all (fun kw => hasSub (pyLower task) kw) = true ∧
        (AUTO_SELECT_RULES.take i).all
          (fun r => !(ruleMatches (pyLower task) (truncLower input_text) r)) = true) := by
  rw [autoSelect_no_source, autoRulesLoop_eq_find]
  have hmemRule : (kws, ([] : List LC), pat) ∈ AUTO_SELECT_RULES := mem_of_getElem?_eq hrule
  constructor
  · intro h
    obtain ⟨r, hfind, hr2⟩ := Option.map_eq_some'.mp h
    obtain ⟨i2, hi2, hpr, hall⟩ := find?_first_spec _ _ _ hfind
    have hrmem : r ∈ AUTO_SELECT_RULES := mem_of_getElem?_eq hi2
    have heq : r = (kws, [], pat) := by
      apply List.inj_on_of_nodup_map rulesPatterns_nodup hrmem hmemRule
      simpa using hr2
    subst heq
    have hieq : i2 = i :=
      nodup_getElem?_inj _ (List.Nodup.of_map _ rulesPatterns_nodup) i2 i _ hi2 hrule
    subst hieq
    refine ⟨?_, hall⟩
    simpa [ruleMatches] using hpr
  · rintro ⟨hall, hearlier⟩
    have hfind : AUTO_SELECT_RULES.find?
        (ruleMatches (pyLower task) (truncLower input_text)) = some (kws, [], pat) :=
      find?_eq_some_of_first _ _ i _ hrule (by simp [ruleMatches, hall]) hearlier
    simp [hfind]

/-- C1 witness: at rule index 6 (`analyze_threat_report`), task
"threat report" satisfies both keywords and no earlier rule, so the
selector returns `analyze_threat_report`. -/
theorem C1_witness :
    autoSelectPattern "threat report".data [] [] = some "analyze_threat_report".data :=
  ( C1_theorem ("threat report".data) [] 6 ["threat".data, "report".data]
    "analyze_threat_report".data (by decide)).2 ⟨by decide, by decide⟩

/-- C1 counterexample: the rule `(["analyze", "paper"], [], "analyze_paper")`
has all of its keywords in the task "analyze academic research paper", yet
the selector does not return `analyze_paper` (the earlier
`(["paper", "academic", "research"], [], "summarize_paper")` rule wins),
refuting the claimed "if and only if". -/
theorem C1_counterexample :
    (["analyze".data, "paper".data], ([] : List LC), "analyze_paper".data) ∈ AUTO_SELECT_RULES ∧
    (["analyze".data, "paper".data].all
      (fun kw => hasSub (pyLower "analyze academic research paper".data) kw)) = true ∧
    autoSelectPattern "analyze academic research paper".data [] [] ≠
      some "analyze_paper".data := by
  refine ⟨by decide, by decide, by decide⟩

set_option maxRecDepth 100000 in
/-- C2 (corrected): for a rule of `AUTO_SELECT_RULES` with non-empty
content hints at position `i`, `_auto_select_pattern` with no source
returns that rule's pattern iff some keyword occurs in the lowered task,
some hint occurs in the first 1000 characters of the lowered input, AND no
earlier rule's own condition is satisfied (the original claim omitted the
last conjunct — an earlier matching rule pre-empts a later one).  The
truncation boundary is exact: with the 11-character hint `youtube.com`
occupying positions 989–999 the hint matches and the selector returns
`youtube_summary`; with the hint starting at position 1000 it is cut off
and the selector falls through to the `summarize` rule. -/
theorem C2_theorem :
    (∀ (task input_text : LC) (i : Nat) (kws hints : List LC) (pat : LC),
      AUTO_SELECT_RULES[i]? = some (kws, hints, pat) → hints ≠ [] →
      (autoSelectPattern task input_text [] = some pat ↔
        (kws.any (fun kw => hasSub (pyLower task) kw) = true ∧
         hints.any (fun h => hasSub (truncLower input_text) h) = true ∧
         (AUTO_SELECT_RULES.take i).all
           (fun r => !(ruleMatches (pyLower task) (truncLower input_text) r)) = true))) ∧
    autoSelectPattern "summarize".data (List.replicate 989 'x' ++ "youtube.com".data) [] =
      some "youtube_summary".data ∧
    autoSelectPattern "summarize".data (List.replicate 1000 'x' ++ "youtube.com".data) [] =
      some "summarize".data := by
  refine ⟨?_, by decide, by decide⟩
  intro task input_text i kws hints pat hrule hne
  have hhe : hints.isEmpty = false := by
    cases hints with
    | nil => exact absurd rfl hne
    | cons a t => rfl
  rw [autoSelect_no_source, autoRulesLoop_eq_find]
  have hmemRule : (kws, hints, pat) ∈ AUTO_SELECT_RULES := mem_of_getElem?_eq hrule
  constructor
  · intro h
    obtain ⟨r, hfind, hr2⟩ := Option.map_eq_some'.mp h
    obtain ⟨i2, hi2, hpr, hall⟩ := find?_first_spec _ _ _ hfind
    have hrmem : r ∈ AUTO_SELECT_RULES := mem_of_getElem?_eq hi2
    have heq : r = (kws, hints, pat) := by
      apply List.inj_on_of_nodup_map rulesPatterns_nodup hrmem hmemRule
      simpa using hr2
    subst heq
    have hieq : i2 = i :=
      nodup_getElem?_inj _ (List.Nodup.of_map _ rulesPatterns_nodup) i2 i _ hi2 hrule
    subst hieq
    have hcond := hpr
    rw [show ruleMatches (pyLower task) (truncLower input_text) (kws, hints, pat) =
        (kws.any (fun kw => hasSub (pyLower task) kw) &&
         hints.any (fun h => hasSub (truncLower input_text) h)) from by
      simp [ruleMatches, hhe]] at hcond
    rw [Bool.and_eq_true] at hcond
    exact ⟨hcond.1, hcond.2, hall⟩
  · rintro ⟨hany, hhint, hearlier⟩
    have hfind : AUTO_SELECT_RULES.find?
        (ruleMatches (pyLower task) (truncLower input_text)) = some (kws, hints, pat) :=
      find?_eq_some_of_first _ _ i _ hrule (by simp [ruleMatches, hhe, hany, hhint]) hearlier
    simp [hfind]

/-- C2 witness: at rule index 0 (`youtube_summary`), task "summarize"
with input "youtube.com" satisfies a keyword, a content hint and no
earlier rule (there is none), so the selector returns `youtube_summary`. -/
theorem C2_witness :
    autoSelectPattern "summarize".data "youtube.com".data [] = some "youtube_summary".data :=
  (C2_theorem.1 "summarize".data "youtube.com".data 0
    ["youtube".data, "video".data, "summarize".data]
    ["youtube.com".data, "youtu.be".data] "youtube_summary".data (by decide) (by decide)).2
    ⟨by decide, by decide, by decide⟩

/-- C2 counterexample: the rule
`(["wisdom", "insights", "extract"], hints, "extract_wisdom")` has a
matching keyword ("wisdom") and a matching hint ("youtube.com"), yet the
selector does not return `extract_wisdom` (the earlier `youtube_summary`
rule also matches, via the keyword "summarize"), refuting the claimed
"if and only if". -/
theorem C2_counterexample :
    (["wisdom".data, "insights".data, "extract".data],
      ["youtube.com".data, "youtu.be".data], "extract_wisdom".data) ∈ AUTO_SELECT_RULES ∧
    (["wisdom".data, "insights".data, "extract".data].any
      (fun kw => hasSub (pyLower "summarize wisdom".data) kw)) = true ∧
    (["youtube.com".data, "youtu.be".data].any
      (fun h => hasSub (truncLower "youtube.com".data) h)) = true ∧
    autoSelectPattern "summarize wisdom".data "youtube.com".data [] ≠
      some "extract_wisdom".data := by
  refine ⟨by decide, by decide, by decide, by decide⟩

/-- C3 (confirmed): when the source has a `prefix:argument` shape and the
lowered prefix is a key of `SOURCE_ACTIONS` (`yt` or `pdf`), the
selector's result is fully determined by that tag's ordered action list:
the pattern of the first non-sentinel action keyword occurring
(case-insensitively) in the task, else the tag's sentinel default — and
the result is always `some` pattern (never "no match"), so the global
rule table is never consulted (the conclusion does not depend on
`input_text`). -/
theorem C3_theorem (task input_text source : LC) (acts : List (LC × LC))
    (hc : source.elem ':' = true)
    (hacts : SOURCE_ACTIONS (pyLower (beforeFirst [':'] source)) = some acts) :
    autoSelectPattern task input_text source = actionTableSelect acts (pyLower task) ∧
    (actionTableSelect acts (pyLower task)).isSome = true := by
  have hdflt : ∃ d : LC, d.isEmpty = false ∧
      acts.foldl (fun acc ap => if ap.1.isEmpty then some ap.2 else acc) none = some d := by
    unfold SOURCE_ACTIONS at hacts
    by_cases hyt : pyLower (beforeFirst [':'] source) = "yt".data
    · rw [if_pos hyt] at hacts
      injection hacts with hacts
      subst hacts
      exact ⟨"youtube_summary".data, by decide, by decide⟩
    · rw [if_neg hyt] at hacts
      by_cases hpdf : pyLower (beforeFirst [':'] source) = "pdf".data
      · rw [if_pos hpdf] at hacts
        injection hacts with hacts
        subst hacts
        exact ⟨"summarize_paper".data, by decide, by decide⟩
      · rw [if_neg hpdf] at hacts
        exact absurd hacts (by simp)
  obtain ⟨d, hdne, hd⟩ := hdflt
  rcases scanActions_spec (pyLower task) acts none with ⟨ap, hfind, hscan⟩ | ⟨hfind, hscan⟩
  · constructor
    · unfold autoSelectPattern
      simp only [hc, if_true, hacts, hscan]
      unfold actionTableSelect
      rw [hfind]
    · unfold actionTableSelect
      rw [hfind]
      rfl
  · rw [hd] at hscan
    constructor
    · unfold autoSelectPattern
      simp only [hc, if_true, hacts, hscan, hdne]
      unfold actionTableSelect
      rw [hfind, hd]
      simp
    · unfold actionTableSelect
      rw [hfind, hd]
      rfl

/-- C3 witness: for source `yt:v` the task "extract wisdom" selects
`extract_wisdom` (the `wisdom` action is the first match); for source
`pdf:x` a task with no recognized action keyword falls back to the
sentinel default `summarize_paper` rather than "no match". -/
theorem C3_witness :
    autoSelectPattern "extract wisdom".data [] "yt:v".data = some "extract_wisdom".data ∧
    autoSelectPattern "hello".data [] "pdf:x".data = some "summarize_paper".data := by
  constructor
  · exact ( C3_theorem ("extract wisdom".data) [] ("yt:v".data) ytSourceActions
      (by decide) (by decide)).1.trans (by decide)
  · exact ( C3_theorem ("hello".data) [] ("pdf:x".data) pdfSourceActions
      (by decide) (by decide)).1.trans (by decide)

/-- C7 (confirmed): the four reference spellings of the same repository
all normalize to `owner/repo`. -/
theorem C7_theorem :
    normalizeGithubRepo "owner/repo".data = .ok "owner/repo".data ∧
    normalizeGithubRepo "github.com/owner/repo".data = .ok "owner/repo".data ∧
    normalizeGithubRepo "https://github.com/owner/repo.git".data = .ok "owner/repo".data ∧
    normalizeGithubRepo "https://github.com/owner/repo/tree/main/src".data =
      .ok "owner/repo".data := by
  refine ⟨by decide, by decide, by decide, by decide⟩

theorem normYt_accept (s : LC) (hv : ytIdCheck s = true) :
    normalizeYoutubeUrl s = .ok ("https://www.youtube.com/watch?v=".data ++ s) := by
  have hall : ∀ c ∈ s, ytIdChar c = true := by
    have h2 := hv
    unfold ytIdCheck at h2
    rw [Bool.and_eq_true, Bool.and_eq_true] at h2
    exact fun c hc => (List.all_eq_true.mp h2.2) c hc
  have hstrip : pyStrip s = s := pyStrip_eq_self (fun c hc => ytIdChar_not_space (hall c hc))
  have hh1 : listStartsWith s "http://".data = false := by
    by_contra hcon
    rw [Bool.not_eq_false] at hcon
    have hmem : ':' ∈ s := startsWith_mem hcon (by decide)
    exact ytIdChar_not_colon (hall ':' hmem) rfl
  have hh2 : listStartsWith s "https://".data = false := by
    by_contra hcon
    rw [Bool.not_eq_false] at hcon
    have hmem : ':' ∈ s := startsWith_mem hcon (by decide)
    exact ytIdChar_not_colon (hall ':' hmem) rfl
  have hdom : ytDomains.find? (fun d => listStartsWith s d) = none := by
    rw [List.find?_eq_none]
    intro d hd hcon
    have hdot : '.' ∈ d := by
      simp only [ytDomains, List.mem_cons, List.not_mem_nil, or_false] at hd
      rcases hd with rfl | rfl | rfl | rfl <;> decide
    have hmem : '.' ∈ s := startsWith_mem hcon hdot
    exact ytIdChar_not_dot (hall '.' hmem) rfl
  unfold normalizeYoutubeUrl
  rw [hstrip]
  dsimp only
  rw [hh1, hh2, hdom, hv]
  simp

theorem normYt_reject (s : LC)
    (h1 : listStartsWith (pyStrip s) "http://".data = false)
    (h2 : listStartsWith (pyStrip s) "https://".data = false)
    (h3 : ytDomains.find? (fun d => listStartsWith (pyStrip s) d) = none)
    (h4 : ytIdCheck (pyStrip s) = false) :
    normalizeYoutubeUrl s = .error (ytErrMsg (pyStrip s)) := by
  unfold normalizeYoutubeUrl
  dsimp only
  rw [h1, h2, h3, h4]
  simp

theorem normYt_len5 (s : LC) (hlen : s.length = 5) : isErr (normalizeYoutubeUrl s) = true := by
  have hle : (pyStrip s).length ≤ 5 := hlen ▸ pyStrip_length_le s
  have hh1 : listStartsWith (pyStrip s) "http://".data = false := by
    by_contra hcon
    rw [Bool.not_eq_false] at hcon
    have hl := startsWith_length hcon
    have h7 : ("http://".data).length = 7 := by decide
    omega
  have hh2 : listStartsWith (pyStrip s) "https://".data = false := by
    by_contra hcon
    rw [Bool.not_eq_false] at hcon
    have hl := startsWith_length hcon
    have h8 : ("https://".data).length = 8 := by decide
    omega
  have hdom : ytDomains.find? (fun d => listStartsWith (pyStrip s) d) = none := by
    rw [List.find?_eq_none]
    intro d hd hcon
    have hl := startsWith_length hcon
    simp only [ytDomains, List.mem_cons, List.not_mem_nil, or_false] at hd
    rcases hd with rfl | rfl | rfl | rfl <;> simp_all <;> omega
  have h4 : ytIdCheck (pyStrip s) = false := by
    unfold ytIdCheck
    have h10 : decide (10 ≤ (pyStrip s).length) = false := by
      rw [decide_eq_false_iff_not]
      omega
    rw [h10]
    simp
  rw [normYt_reject s hh1 hh2 hdom h4]
  rfl

/-- C8 (confirmed): every bare identifier of 10–12 characters drawn from
letters, digits, hyphen and underscore (in particular every 11-character
alphanumeric string) is accepted and transformed into the canonical watch
URL; every argument whose stripped form is unschemed, does not start with
a known video-host domain and is outside the identifier shape fails with
the `ValueError` of `_normalize_youtube_url` (the `InvalidReference`
error) — in particular every 5-character argument fails. -/
theorem C8_theorem :
    (∀ s : LC, ytIdCheck s = true →
      normalizeYoutubeUrl s = .ok ("https://www.youtube.com/watch?v=".data ++ s)) ∧
    (∀ s : LC,
      listStartsWith (pyStrip s) "http://".data = false →
      listStartsWith (pyStrip s) "https://".data = false →
      ytDomains.find? (fun d => listStartsWith (pyStrip s) d) = none →
      ytIdCheck (pyStrip s) = false →
      normalizeYoutubeUrl s = .error (ytErrMsg (pyStrip s))) ∧
    (∀ s : LC, s.length = 5 → isErr (normalizeYoutubeUrl s) = true) :=
  ⟨normYt_accept, normYt_reject, normYt_len5⟩

/-- C8 witness: the 11-character alphanumeric identifier `dQw4w9WgXcQ`
becomes the canonical watch URL, and the 5-character argument `abcde`
is rejected. -/
theorem C8_witness :
    normalizeYoutubeUrl "dQw4w9WgXcQ".data =
      .ok "https://www.youtube.com/watch?v=dQw4w9WgXcQ".data ∧
    isErr (normalizeYoutubeUrl "abcde".data) = true :=
  ⟨(C8_theorem.1 "dQw4w9WgXcQ".data (by decide)).trans (by decide),
   C8_theorem.2.2 "abcde".data (by decide)⟩

theorem normUrl_idem (s : LC) : normalizeUrl (normalizeUrl s) = normalizeUrl s := by
  by_cases h : (listStartsWith (pyStrip s) "http://".data ||
      listStartsWith (pyStrip s) "https://".data) = true
  · have h1 : normalizeUrl s = pyStrip s := by
      unfold normalizeUrl
      dsimp only
      rw [if_pos h]
    rw [h1]
    unfold normalizeUrl
    dsimp only
    rw [pyStrip_idem, if_pos h]
  · have h1 : normalizeUrl s = "https://".data ++ pyStrip s := by
      unfold normalizeUrl
      dsimp only
      rw [if_neg h]
    rw [h1]
    unfold normalizeUrl
    dsimp only
    have hfix : pyStrip ("https://".data ++ pyStrip s) = "https://".data ++ pyStrip s :=
      pyStrip_append_fixed (by decide) (by decide) (pyStrip_idem s)
    rw [hfix]
    have hsw : listStartsWith ("https://".data ++ pyStrip s) "https://".data = true :=
      startsWith_append_self _ _
    rw [if_pos (by rw [hsw]; simp)]

theorem normYt_fix (s v : LC) (h : normalizeYoutubeUrl s = .ok v) :
    normalizeYoutubeUrl v = .ok v := by
  unfold normalizeYoutubeUrl at h
  dsimp only at h
  by_cases h1 : (listStartsWith (pyStrip s) "http://".data ||
      listStartsWith (pyStrip s) "https://".data) = true
  · rw [if_pos h1] at h
    injection h with h
    subst h
    unfold normalizeYoutubeUrl
    dsimp only
    rw [pyStrip_idem, if_pos h1]
  · rw [if_neg h1] at h
    cases hf : List.find? (fun d => listStartsWith (pyStrip s) d) ytDomains with
    | some d =>
      rw [hf] at h
      injection h with h
      subst h
      have hfix : pyStrip ("https://".data ++ pyStrip s) = "https://".data ++ pyStrip s :=
        pyStrip_append_fixed (by decide) (by decide) (pyStrip_idem s)
      have hsw : listStartsWith ("https://".data ++ pyStrip s) "https://".data = true :=
        startsWith_append_self _ _
      unfold normalizeYoutubeUrl
      dsimp only
      rw [hfix, if_pos (by rw [hsw]; simp)]
    | none =>
      rw [hf] at h
      by_cases hid : ytIdCheck (pyStrip s) = true
      · rw [if_pos hid] at h
        injection h with h
        subst h
        have hfix : pyStrip ("https://www.youtube.com/watch?v=".data ++ pyStrip s) =
            "https://www.youtube.com/watch?v=".data ++ pyStrip s :=
          pyStrip_append_fixed (by decide) (by decide) (pyStrip_idem s)
        have hsplit : ("https://www.youtube.com/watch?v=".data : LC) =
            "https://".data ++ "www.youtube.com/watch?v=".data := by decide
        have hsw : listStartsWith ("https://www.youtube.com/watch?v=".data ++ pyStrip s)
            "https://".data = true := by
          rw [hsplit, List.append_assoc]
          exact startsWith_append_self _ _
        unfold normalizeYoutubeUrl
        dsimp only
        rw [hfix, if_pos (by rw [hsw]; simp)]
      · rw [if_neg hid] at h
        exact absurd h (by simp)

theorem repoFallback_pair (o n : LC) (ho : o ≠ []) (hn : n ≠ [])
    (hoc : ∀ c ∈ o, repoNameChar c = true) (hnsl : ∀ c ∈ n, (c == '/') = false)
    (hgit : hasSub n ".git".data = false) :
    repoFallback (o ++ '/' :: n) = .ok (o ++ '/' :: n) := by
  have hosl : ∀ c ∈ o, (c == '/') = false := fun c hc => repoNameChar_not_slash (hoc c hc)
  have helem : (o ++ '/' :: n).elem '/' = true :=
    List.elem_eq_true_of_mem (List.mem_append_right _ (List.mem_cons_self _ _))
  have hsw0 : listStartsWith (o ++ '/' :: n) "/".data = false := by
    cases o with
    | nil => exact absurd rfl ho
    | cons a o2 =>
      have ha : (a == '/') = false := hosl a (List.mem_cons_self a o2)
      show listStartsWith (a :: (o2 ++ '/' :: n)) ['/'] = false
      simp [listStartsWith, ha]
  have hsplitx : pySplitChar '/' (o ++ '/' :: n) = [o, n] := by
    rw [pySplitChar_append hosl, pySplitChar_sepfree hnsl]
  unfold repoFallback
  rw [if_pos (by rw [helem, hsw0]; simp), hsplitx]
  dsimp only
  rw [if_pos (by simp [List.isEmpty_iff, ho, hn]), beforeFirst_of_not_sub hgit]

theorem repo_pair_fixed (o n : LC) (ho : o ≠ []) (hn : n ≠ [])
    (hoc : ∀ c ∈ o, repoNameChar c = true) (hnc : ∀ c ∈ n, repoNameChar c = true)
    (hgit : hasSub n ".git".data = false) :
    normalizeGithubRepo (o ++ '/' :: n) = .ok (o ++ '/' :: n) := by
  have hxmem : ∀ c ∈ o ++ '/' :: n, c ∈ o ∨ c = '/' ∨ c ∈ n := by
    intro c hc
    rcases List.mem_append.mp hc with h | h
    · exact Or.inl h
    · rcases List.mem_cons.mp h with h | h
      · exact Or.inr (Or.inl h)
      · exact Or.inr (Or.inr h)
  have hstrip : pyStrip (o ++ '/' :: n) = o ++ '/' :: n := by
    apply pyStrip_eq_self
    intro c hc
    rcases hxmem c hc with h | h | h
    · exact repoNameChar_not_space (hoc c h)
    · subst h; decide
    · exact repoNameChar_not_space (hnc c h)
  have hnsl : ∀ c ∈ n, (c == '/') = false := fun c hc => repoNameChar_not_slash (hnc c hc)
  have hosl : ∀ c ∈ o, (c == '/') = false := fun c hc => repoNameChar_not_slash (hoc c hc)
  have hcolon : ∀ p : LC, ':' ∈ p → listStartsWith (o ++ '/' :: n) p = false := by
    intro p hp
    by_contra hcon
    rw [Bool.not_eq_false] at hcon
    rcases hxmem ':' (startsWith_mem hcon hp) with h | h | h
    · exact repoNameChar_not_colon (hoc ':' h) rfl
    · simp at h
    · exact repoNameChar_not_colon (hnc ':' h) rfl
  have hsch1 : listStartsWith (o ++ '/' :: n) "http://".data = false := hcolon _ (by decide)
  have hsch2 : listStartsWith (o ++ '/' :: n) "https://".data = false := hcolon _ (by decide)
  have hB := repoFallback_pair o n ho hn hoc hnsl hgit
  have hgh : ghUrlResult (o ++ '/' :: n) = none ∨
      ghUrlResult (o ++ '/' :: n) = some (o ++ '/' :: n) := by
    unfold ghUrlResult
    by_cases hg : hasSub (o ++ '/' :: n) "github.com".data = true
    · rw [if_pos hg]
      dsimp only
      rw [hsch1, hsch2]
      simp only [Bool.or_self, Bool.false_eq_true, if_false]
      by_cases hgh1 : listStartsWith (o ++ '/' :: n) "github.com/".data = true
      · have ho_eq : o = "github.com".data := by
          apply prefix_upto_sep o "github.com".data n hosl (by decide)
          exact hgh1
        rw [if_pos hgh1]
        subst ho_eq
        have hdrop : ("github.com".data ++ '/' :: n).drop 11 = n := by
          have he : "github.com".data ++ '/' :: n = "github.com/".data ++ n := by
            rw [List.append_cons]
            congr 1
          rw [he]
          exact List.drop_left' (by decide)
        rw [hdrop, pySplitChar_sepfree hnsl]
        exact Or.inl rfl
      · have hgh2 : listStartsWith (o ++ '/' :: n) "github.com/".data = false := by
          simpa using hgh1
        rw [hgh2]
        simp only [Bool.false_eq_true, if_false]
        rw [pySplitChar_append hosl, pySplitChar_sepfree hnsl]
        dsimp only
        have hnend : listEndsWith n ".git".data = false := by
          by_contra hcon
          rw [Bool.not_eq_false] at hcon
          exact absurd (hasSub_of_endsWith hcon) (by simp [hgit])
        rw [hnend]
        simp
    · rw [if_neg hg]
      exact Or.inl rfl
  unfold normalizeGithubRepo
  dsimp only
  rw [hstrip]
  rcases hgh with hgh | hgh
  · rw [hgh]
    exact hB
  · rw [hgh]

/-- C9 (corrected): normalizing twice equals normalizing once for the
plain-URL tag on ALL inputs and for the video tag on every successfully
normalized input; for the repository tag it holds for owner/name pairs
built from GitHub name characters whose name does not contain `.git`
(such pairs are fixpoints of the normalizer).  The original claim fails
for the repository tag on a canonical owner/name pair whose name contains
`.git` (e.g. `octo/.github`): the normalizer truncates the name at the
first `.git`, and renormalizing the truncated result raises. -/
theorem C9_theorem :
    (∀ s : LC, normalizeUrl (normalizeUrl s) = normalizeUrl s) ∧
    (∀ s v : LC, normalizeYoutubeUrl s = .ok v → normalizeYoutubeUrl v = .ok v) ∧
    (∀ o n : LC, o ≠ [] → n ≠ [] →
      (∀ c ∈ o, repoNameChar c = true) → (∀ c ∈ n, repoNameChar c = true) →
      hasSub n ".git".data = false →
      normalizeGithubRepo (o ++ '/' :: n) = .ok (o ++ '/' :: n)) :=
  ⟨normUrl_idem, normYt_fix, repo_pair_fixed⟩

/-- C9 witness: an already-schemed URL, a full watch URL and the pair
`octo/repo` are all stable under a second normalization. -/
theorem C9_witness :
    normalizeUrl (normalizeUrl "example.com/a".data) = normalizeUrl "example.com/a".data ∧
    normalizeYoutubeUrl "https://www.youtube.com/watch?v=dQw4w9WgXcQ".data =
      .ok "https://www.youtube.com/watch?v=dQw4w9WgXcQ".data ∧
    normalizeGithubRepo ("octo".data ++ '/' :: "repo".data) =
      .ok ("octo".data ++ '/' :: "repo".data) :=
  ⟨C9_theorem.1 "example.com/a".data,
   C9_theorem.2.1 "https://www.youtube.com/watch?v=dQw4w9WgXcQ".data
     "https://www.youtube.com/watch?v=dQw4w9WgXcQ".data (by decide),
   C9_theorem.2.2 "octo".data "repo".data (by decide) (by decide) (by decide) (by decide)
     (by decide)⟩

/-- C9 counterexample: `octo/.github` is an owner/name pair (the standard
community-health repository name `.github`), yet
`normalize(normalize(x))` differs from `normalize(x)`: the single
normalization yields `octo/` (the name is truncated at `.git`), and
normalizing that again raises `ValueError`, refuting idempotence on
canonical owner/name pairs. -/
theorem C9_counterexample :
    isOwnerNamePair "octo/.github".data = true ∧
    normalizeGithubRepo "octo/.github".data = .ok "octo/".data ∧
    (normalizeGithubRepo "octo/.github".data).bind normalizeGithubRepo ≠
      normalizeGithubRepo "octo/.github".data := by
  refine ⟨by decide, by decide, by decide⟩

/-- C5 (code bug): on the remote-document path the temporary file is
deleted when extraction succeeds or fails, but NOT when the download
itself fails after the temporary file has been created:
`_download_url_to_temp` creates the file with `delete=False` before
`urlopen` runs, and the caller's `try/finally: os.unlink` is only entered
after `_download_url_to_temp` has returned, so an exception raised during
the download leaves the file on disk. -/
theorem C5_theorem :
    (∀ (e : PyExc) (extract : Except PyExc LC),
      pdfRemoteFetch (.error e) extract = (.error e, true)) ∧
    (∀ extract : Except PyExc LC, (pdfRemoteFetch (.ok ()) extract).2 = false) := by
  constructor
  · intro e extract
    rfl
  · intro extract
    unfold pdfRemoteFetch
    cases extract <;> rfl

/-- C10 (confirmed): source loading runs before the task/pattern
validation check.  With both task and pattern empty and a non-empty
source, a failing load yields the source error envelope (never the
validation envelope); the validation envelope is produced only when the
load succeeded or no source was given. -/
theorem C10_theorem :
    (∀ (env : FabricEnv) (source input_text : LC) (e : PyExc),
      source ≠ [] → env.loadSource source = .error e →
      promptFabric env [] [] input_text source = sourceErrEnvelope source e) ∧
    (∀ (env : FabricEnv) (source input_text v : LC),
      env.loadSource source = .ok v →
      promptFabric env [] [] input_text source = validationEnvelope) ∧
    (∀ (env : FabricEnv) (input_text : LC),
      promptFabric env [] [] input_text [] = validationEnvelope) := by
  refine ⟨?_, ?_, ?_⟩
  · intro env source input_text e hne hload
    unfold promptFabric
    rw [if_neg (by simp [List.isEmpty_iff, hne]), hload]
  · intro env source input_text v hload
    by_cases hsrc : source = []
    · subst hsrc
      rfl
    · unfold promptFabric
      rw [if_neg (by simp [List.isEmpty_iff, hsrc]), hload]
      rfl
  · intro env input_text
    rfl

/-- C10 witness: a loader that always raises produces the source error
envelope even though both task and pattern are empty. -/
theorem C10_witness :
    promptFabric c10Env [] [] [] "pdf:x".data =
      sourceErrEnvelope "pdf:x".data (.otherExc "boom".data) :=
  C10_theorem.1 c10Env "pdf:x".data [] (.otherExc "boom".data) (by decide) rfl

theorem replaceChar_append (c : Char) (r : LC) (a b : LC) :
    replaceChar c r (a ++ b) = replaceChar c r a ++ replaceChar c r b := by
  induction a with
  | nil => rfl
  | cons x xs ih =>
    by_cases hx : (x == c) = true
    · simp [replaceChar, hx, ih, List.append_assoc]
    · have hx2 : (x == c) = false := by simpa using hx
      simp [replaceChar, hx2, ih]

theorem escapeXmlAttr_append (a b : LC) :
    escapeXmlAttr (a ++ b) = escapeXmlAttr a ++ escapeXmlAttr b := by
  unfold escapeXmlAttr
  rw [replaceChar_append, replaceChar_append, replaceChar_append, replaceChar_append]

theorem escapeXmlAttr_single (x : Char) : escapeXmlAttr [x] = escChar x := by
  by_cases h1 : x = '&'
  · subst h1; decide
  · by_cases h2 : x = '<'
    · subst h2; decide
    · by_cases h3 : x = '>'
      · subst h3; decide
      · by_cases h4 : x = '"'
        · subst h4; decide
        · have b1 : (x == '&') = false := by simp [h1]
          have b2 : (x == '<') = false := by simp [h2]
          have b3 : (x == '>') = false := by simp [h3]
          have b4 : (x == '"') = false := by simp [h4]
          unfold escapeXmlAttr escChar
          simp [replaceChar, b1, b2, b3, b4]

theorem escapeXmlAttr_charwise (s : LC) : escapeXmlAttr s = escCharwise s := by
  induction s with
  | nil => rfl
  | cons x xs ih =>
    have hsplit : escapeXmlAttr (x :: xs) = escapeXmlAttr ([x] ++ xs) := rfl
    rw [hsplit, escapeXmlAttr_append, escapeXmlAttr_single, ih]
    rfl

theorem promptFabric_result_envelope (env : FabricEnv) (task pattern input_text r : LC)
    (hp : pattern ≠ [])
    (hfx : listStartsWith (pyStrip pattern) "fabric:".data = false)
    (hrun : runPatternM env (pyStrip pattern) input_text = .ok r) :
    promptFabric env task pattern input_text [] =
      "<fabric_result pattern=\"".data ++ escapeXmlAttr (pyStrip pattern) ++ "\">\n".data ++
        r ++ "\n</fabric_result>".data := by
  have hpe : pattern.isEmpty = false := by
    cases pattern with
    | nil => exact absurd rfl hp
    | cons a t => rfl
  unfold promptFabric
  dsimp only
  rw [hpe, hfx]
  simp only [Bool.and_false, Bool.not_false, Bool.false_eq_true, if_false, if_true]
  have hred : (if ([] : LC).isEmpty = true then Except.ok input_text else env.loadSource []) =
      Except.ok input_text := rfl
  rw [hred]
  dsimp only
  rw [hrun]

/-- C6 (corrected): `_escape_xml_attr` escapes exactly the four
characters `&`, `<`, `>`, `"`, character-wise — each occurrence is
replaced exactly once and nothing else changes, so there is no
double-escaping — and `prompt_fabric` applies it to the ATTRIBUTE values
of the envelope (pattern name, source, task); the result payload itself
is interpolated verbatim, unescaped (the envelope "preserves Markdown
formatting" per the source's docstring). -/
theorem C6_theorem :
    (∀ s : LC, escapeXmlAttr s = escCharwise s) ∧
    (∀ (env : FabricEnv) (task pattern input_text r : LC),
      pattern ≠ [] →
      listStartsWith (pyStrip pattern) "fabric:".data = false →
      runPatternM env (pyStrip pattern) input_text = .ok r →
      promptFabric env task pattern input_text [] =
        "<fabric_result pattern=\"".data ++ escapeXmlAttr (pyStrip pattern) ++ "\">\n".data ++
          r ++ "\n</fabric_result>".data) :=
  ⟨escapeXmlAttr_charwise, promptFabric_result_envelope⟩

/-- C6 witness: with a pattern name containing `<`, the attribute value
is escaped in the envelope while the payload `OUT` appears verbatim. -/
theorem C6_witness :
    promptFabric c6Env "t".data "p<q".data [] [] =
      "<fabric_result pattern=\"".data ++ escapeXmlAttr (pyStrip "p<q".data) ++ "\">\n".data ++
        "OUT".data ++ "\n</fabric_result>".data :=
  C6_theorem.2 c6Env "t".data "p<q".data [] "OUT".data (by decide) (by decide) rfl

/-- C6 counterexample: a result payload holding all four characters
`<`, `&`, `>`, `"` is interpolated into the envelope verbatim — the raw
payload occurs as a substring of the output and its escaped form does
not — refuting the claim that the payload is rendered with all four
characters escaped. -/
theorem C6_counterexample :
    promptFabric c6CexEnv "t".data "p".data [] [] =
      "<fabric_result pattern=\"p\">\n<&>\"\n</fabric_result>".data ∧
    hasSub ("<fabric_result pattern=\"p\">\n<&>\"\n</fabric_result>".data) "\n<&>\"\n".data =
      true ∧
    hasSub ("<fabric_result pattern=\"p\">\n<&>\"\n</fabric_result>".data)
      "&lt;&amp;&gt;&quot;".data = false := by
  refine ⟨by decide, by decide, by decide⟩

/-- C4 (confirmed): for every combination of arguments and every
behaviour of the collaborators (source loading, template lookup, model
invocation, suggestion generation) — including raising — `prompt_fabric`
returns one of the three envelope forms: every branch of the total
function below yields a `<fabric_result`, `<fabric_error` or
`<fabric_suggestions` envelope, so no fault propagates to the caller
(suggestion failures are absorbed inside `suggestPatterns`). -/
theorem C4_theorem (env : FabricEnv) (task pattern input_text source : LC) :
    listStartsWith (promptFabric env task pattern input_text source) "<fabric_result".data = true ∨
    listStartsWith (promptFabric env task pattern input_text source) "<fabric_error".data = true ∨
    listStartsWith (promptFabric env task pattern input_text source) "<fabric_suggestions".data
      = true := by
  unfold promptFabric
  dsimp only
  split
  · right; left
    unfold sourceErrEnvelope
    simp only [List.append_assoc]
    exact startsWith_prepend _ (by decide)
  · split
    · right; left
      decide
    · split
      · split
        · left
          simp only [List.append_assoc]
          exact startsWith_prepend _ (by decide)
        · right; left
          simp only [List.append_assoc]
          exact startsWith_prepend _ (by decide)
        · right; left
          simp only [List.append_assoc]
          exact startsWith_prepend _ (by decide)
      · split
        · split
          · left
            simp only [List.append_assoc]
            exact startsWith_prepend _ (by decide)
          · right; left
            simp only [List.append_assoc]
            exact startsWith_prepend _ (by decide)
        · right; right
          simp only [List.append_assoc]
          exact startsWith_prepend _ (by decide)
